import Mathlib

/-!
Verification development for the encointer currencies pallet
(`src/lib.rs`).  The pallet registers "currencies": batches of meetup
locations plus bootstrapper accounts, validated for geographic and
solar-time separation before being committed to storage.

Numeric embedding.  The pallet computes on `I32F32` fixed-point degrees
(64-bit two's-complement bit patterns with 32 fractional bits), which we
embed as the bit pattern in `Int`, with explicit wrap-around at the
64-bit boundary where the Rust code uses plain (release-mode wrapping)
arithmetic and explicit `Option` where it uses `checked_*` followed by
`unwrap` (a `none` models a panic).  The transcendental primitives
`sin`, `cos`, `asin`, `sqrt`, `powi` come from the external
substrate-fixed crate, which is not part of this repository; following
the specification they are treated as an external numeric leaf: the
development is parameterised over them (`Trig`), and a concrete
reference instance (`refTrig`), modelled from the specification's
description (internal clamping of domain errors, fixed-point rounding),
is used to evaluate concrete scenarios.
-/

namespace EncointerCurrencies

/-- Bit patterns of `I32F32` live in `[-2^63, 2^63)`; plain Rust
arithmetic on them wraps at that boundary in release builds. -/
def wrap64 (x : Int) : Int := (x + 2 ^ 63) % 2 ^ 64 - 2 ^ 63

/-- Wrap-around of `i32` arithmetic. -/
def wrap32 (x : Int) : Int := (x + 2 ^ 31) % 2 ^ 32 - 2 ^ 31

/-- Fixed-point `I32F32` multiplication: the full product is computed,
rescaled by the 32 fractional bits with the crate's fixed rounding rule
(modelled from the spec as rounding toward zero), and wrapped. -/
def fixmul (x y : Int) : Int := wrap64 (Int.tdiv (x * y) (2 ^ 32))

/-- Fixed-point `I32F32` division (same rounding rule as `fixmul`). -/
def fixdiv (x y : Int) : Int := wrap64 (Int.tdiv (x * 2 ^ 32) y)

/-- Does a bit pattern fit `I32F32` (equivalently `i64`)? -/
def in64 (x : Int) : Bool := decide (-2 ^ 63 ≤ x ∧ x < 2 ^ 63)

/-- `checked_sub` on `I32F32`: `none` on overflow. -/
def checkedSub (x y : Int) : Option Int :=
  if in64 (x - y) then some (x - y) else none

/-- `checked_div` on `I32F32`: `none` on division by zero or overflow. -/
def checkedFixDiv (x y : Int) : Option Int :=
  if y = 0 then none
  else if in64 (Int.tdiv (x * 2 ^ 32) y) then some (Int.tdiv (x * 2 ^ 32) y)
  else none

/-- `checked_mul` on `I32F32`: `none` on overflow. -/
def checkedFixMul (x y : Int) : Option Int :=
  if in64 (Int.tdiv (x * y) (2 ^ 32)) then some (Int.tdiv (x * y) (2 ^ 32))
  else none

/-- Absolute value of an `I32F32`; taking `abs` of the minimum value
overflows (modelled as a panic). -/
def absOpt (x : Int) : Option Int :=
  if x = -2 ^ 63 then none else some |x|

/-- Cast `u32 -> i32` (bit reinterpretation). -/
def u32AsI32 (n : Nat) : Int := if n < 2 ^ 31 then (n : Int) else (n : Int) - 2 ^ 32

/-- Location in lat/lon, fixed-point `I32F32` degrees (bit patterns). -/
structure Location where
  lat : Int
  lon : Int
deriving DecidableEq

/-- Maximum adversary ground speed, m/s. -/
def MAX_SPEED_MPS : Int := 83

/-- Minimum solar trip time between two locations, seconds. -/
def MIN_SOLAR_TRIP_TIME_S : Int := 1

/-- Minimum distance from poles and dateline, meters. -/
def DATELINE_DISTANCE_M : Nat := 1000000

/-- North pole: lat `90` degrees (bits `90 <<< 32`), lon `0`. -/
def NORTH_POLE : Location := ⟨90 * 2 ^ 32, 0⟩

/-- South pole: lat `-90` degrees, lon `0`. -/
def SOUTH_POLE : Location := ⟨-90 * 2 ^ 32, 0⟩

/-- Dateline longitude, `180` degrees as `I32F32` bits. -/
def DATELINE_LON : Int := 180 * 2 ^ 32

/-- `U0F64` bits of pi/180 as in the source
(`0x0477D1A894A74E40`). -/
def RADIANS_PER_DEGREE_U0F64 : Nat := 0x0477D1A894A74E40

/-- `I::lossy_from(RADIANS_PER_DEGREE)`: the `U0F64` constant converted
to `I32F32` by truncating the low 32 fractional bits. -/
def radiansPerDegree : Int := (RADIANS_PER_DEGREE_U0F64 / 2 ^ 32 : Nat)

/-- Mean earth radius in meters (`I32F0` bits `0x006136B8`), widened
losslessly to `I32F32`. -/
def meanEarthRadius : Int := 6371000 * 2 ^ 32

/-- `I::from_num(2)` as `I32F32` bits. -/
def twoFixed : Int := 2 * 2 ^ 32

/-- The transcendental fixed-point primitives consumed from the external
substrate-fixed crate.  Modelled from the spec: they are an "external
numeric leaf, consumed not re-specified"; fallible ones (`sqrt`,
`powi`) return `Option`. All operate on `I32F32` bit patterns. -/
structure Trig where
  sin : Int → Int
  cos : Int → Int
  asin : Int → Int
  sqrt : Int → Option Int
  powi2 : Int → Option Int

/-- `if let Ok(r) = powi(x, 2) { r } else { 0 }` as in the source. -/
def presolve (t : Trig) (x : Int) : Int := (t.powi2 x).getD 0

/-- `is_valid_geolocation` from the source: a pure range check on the
fixed-point bit patterns. -/
def is_valid_geolocation (loc : Location) : Bool :=
  if loc.lat > NORTH_POLE.lat then false
  else if loc.lat < SOUTH_POLE.lat then false
  else if loc.lon > DATELINE_LON then false
  else if loc.lon < -DATELINE_LON then false
  else true

/-- The haversine argument `aa = tmp1 + tmp2 * tmp4` of
`haversine_distance`, the part of the computation before
`sqrt(aa).unwrap()` (split out so that lemmas can be stated about
it). -/
def havArg (t : Trig) (a b : Location) : Int :=
  let theta1 := fixmul a.lat radiansPerDegree
  let theta2 := fixmul b.lat radiansPerDegree
  let deltaTheta := wrap64 (theta1 - theta2)
  let deltaLambda := fixmul (wrap64 (a.lon - b.lon)) radiansPerDegree
  let tmp0 := t.sin (fixdiv deltaTheta twoFixed)
  let tmp1 := presolve t tmp0
  let tmp2 := fixmul (t.cos theta1) (t.cos theta2)
  let tmp3 := t.sin (fixdiv deltaLambda twoFixed)
  let tmp4 := presolve t tmp3
  wrap64 (tmp1 + fixmul tmp2 tmp4)

/-- The tail of `haversine_distance` after the square root:
`d = R * (2 * asin s)`, lossily converted to `i64` and cast
`as u32`. -/
def havFinish (t : Trig) (s : Int) : Nat :=
  let c := fixmul twoFixed (t.asin s)
  let d := fixmul meanEarthRadius c
  (Int.fdiv d (2 ^ 32) % 2 ^ 32).toNat

/-- `haversine_distance` from the source.  Returns the `u32` meter value
(`none` models the panic of `sqrt(aa).unwrap()` when the primitive
fails). -/
def haversine_distance (t : Trig) (a b : Location) : Option Nat :=
  match t.sqrt (havArg t a b) with
  | none => none
  | some s => some (havFinish t s)

/-- `solar_trip_time` from the source: flight time at maximum adversary
speed minus the absolute longitude time offset (240 s per degree).
`none` models a panic of one of the `unwrap`s. -/
def solar_trip_time (t : Trig) (frm tol : Location) : Option Int :=
  match haversine_distance t frm tol with
  | none => none
  | some d =>
    match checkedSub frm.lon tol.lon with
    | none => none
    | some dt0 =>
      match checkedFixDiv dt0 (1 * 2 ^ 32) with
      | none => none
      | some dt1 =>
        match checkedFixMul dt1 (240 * 2 ^ 32) with
        | none => none
        | some dt2 =>
          match absOpt dt2 with
          | none => none
          | some dtAbs =>
            let tflight := Int.tdiv (u32AsI32 d) MAX_SPEED_MPS
            let dtSec := Int.fdiv dtAbs (2 ^ 32)
            some (wrap32 (tflight - dtSec))

/-- Clamp an `I32F32` to `[-1, 1]` (bit patterns `[-2^32, 2^32]`). -/
def clampUnit (x : Int) : Int := max (-(2 ^ 32)) (min (2 ^ 32) x)

/-- Kernel-computable floor square root by binary search on `fuel`
high bits. -/
def isqrtGo (n : Nat) : Nat → Nat → Nat
  | 0, acc => acc
  | Nat.succ k, acc =>
    let c := acc + 2 ^ k
    isqrtGo n k (if c * c ≤ n then c else acc)

/-- Floor square root for arguments below `2 ^ 68`. -/
def isqrt (n : Nat) : Nat := isqrtGo n 34 0

/-- Modelled from the spec: a reference instance of the external
transcendental primitives (substrate-fixed's `sin`, `cos`, `asin`,
`sqrt`, `powi` are not part of this repository).  Per the spec they use
fixed-point arithmetic with a fixed rounding rule and clamp arithmetic
domain issues internally (an arcsine argument pushed outside `[-1, 1]`
is clamped; `sqrt` of a slightly negative argument is clamped to zero)
so that no domain error surfaces to the caller.  Small-angle behaviour
(`sin x ~ x`, `cos x ~ 1 - |x|`, `asin x ~ x`) reproduces the
repository's own test vectors (equatorial one-degree solar trip time of
`1099 s`, pole-to-pole distance of half the circumference). -/
def refTrig : Trig where
  sin x := clampUnit x
  cos x := clampUnit (2 ^ 32 - |x|)
  asin x := clampUnit x
  sqrt x := some (Int.ofNat (isqrt ((max x 0).toNat * 2 ^ 32)))
  powi2 x := some (fixmul x x)

/-- Account identifiers (`T::AccountId`), abstracted to `Nat`. -/
abbrev AccountId := Nat

/-- Currency identifiers (`H256` digests), abstracted. -/
abbrev CurrencyIdentifier := Nat

/-- `CurrencyPropertiesType` from the source. -/
structure CurrencyPropertiesType where
  name_utf8 : List Nat
  demurrage_per_block : Int
deriving DecidableEq

/-- Default value of the `CurrencyProperties` storage map. -/
def defaultProperties : CurrencyPropertiesType := ⟨[], 0⟩

/-- The constant properties written for every new currency: name
`"encointer dummy"` (UTF-8 bytes) and the hard-coded demurrage
`I64F64` bits `0x1E3F0A8A973`. -/
def dummyProperties : CurrencyPropertiesType :=
  ⟨[101, 110, 99, 111, 105, 110, 116, 101, 114, 32,
    100, 117, 109, 109, 121], 0x1E3F0A8A973⟩

/-- The pallet's storage: the identifier list and the three maps
(storage maps read as their default value on absent keys, so they are
modelled as total functions). -/
structure State where
  currency_identifiers : List CurrencyIdentifier
  locations : CurrencyIdentifier → List Location
  bootstrappers : CurrencyIdentifier → List AccountId
  currency_properties : CurrencyIdentifier → CurrencyPropertiesType

/-- Storage-map insert: point update. -/
def insertMap {A : Type} (m : CurrencyIdentifier → A) (k : CurrencyIdentifier)
    (v : A) : CurrencyIdentifier → A :=
  fun c => if c = k then v else m c

/-- The environment the dispatchable consumes from outside the pallet:
the transcendental primitives and the `blake2_256` digest of the
SCALE-encoded `(locations, bootstrappers)` pair (a host function, kept
abstract). -/
structure Env where
  trig : Trig
  hash : List Location → List AccountId → CurrencyIdentifier

/-- `DispatchResult` error cases raised by `new_currency` (the three
`decl_error` variants, the two `ensure!` string errors, and
`ensure_signed` failing on an unsigned origin). -/
inductive Err where
  | badOrigin
  | currencyAlreadyRegistered
  | invalidGeolocation
  | minSolarTripTimeViolated
  | minimumDistanceViolationToPole
  | minimumDistanceViolationToDateLine
  | minimumDistanceViolationToOtherCurrency
deriving DecidableEq

/-- Inner loop of the intra-set check: for each `l2` of the proposed
set, skip it if it equals `l1` by value, otherwise require the solar
trip time to reach the minimum.  `some false` means the `ensure!`
fails; `none` models a panic inside `solar_trip_time`. -/
def intraOk (t : Trig) (l1 : Location) : List Location → Option Bool
  | [] => some true
  | l2 :: rest =>
    if l2 = l1 then intraOk t l1 rest
    else
      match solar_trip_time t l1 l2 with
      | none => none
      | some s =>
        if s < MIN_SOLAR_TRIP_TIME_S then some false else intraOk t l1 rest

/-- Pole-proximity test, with the `||` short-circuit of the source:
`some true` means `l1` is too close to a pole. -/
def polesNear (t : Trig) (l1 : Location) : Option Bool :=
  match haversine_distance t l1 NORTH_POLE with
  | none => none
  | some dN =>
    if dN < DATELINE_DISTANCE_M then some true
    else
      match haversine_distance t l1 SOUTH_POLE with
      | none => none
      | some dS => some (dS < DATELINE_DISTANCE_M)

/-- Dateline-proximity test against the probe point at the same
latitude and longitude `180` degrees. -/
def datelineNear (t : Trig) (l1 : Location) : Option Bool :=
  match haversine_distance t l1 ⟨l1.lat, DATELINE_LON⟩ with
  | none => none
  | some d => some (d < DATELINE_DISTANCE_M)

/-- Scan of one registered currency's locations: `some false` means a
location of that currency is too close to `l1`. -/
def globalOkLocs (t : Trig) (l1 : Location) : List Location → Option Bool
  | [] => some true
  | l2 :: rest =>
    match solar_trip_time t l1 l2 with
    | none => none
    | some s =>
      if s < MIN_SOLAR_TRIP_TIME_S then some false else globalOkLocs t l1 rest

/-- Scan over all registered currencies (`for other in cids`). -/
def globalOk (t : Trig) (l1 : Location)
    (locMap : CurrencyIdentifier → List Location) :
    List CurrencyIdentifier → Option Bool
  | [] => some true
  | c :: rest =>
    match globalOkLocs t l1 (locMap c) with
    | none => none
    | some false => some false
    | some true => globalOk t l1 locMap rest

/-- The body of the `for l1 in loc.iter()` loop for a single `l1`, in
source order: validity, intra-set separation, poles, dateline, other
currencies. -/
def checkOne (t : Trig) (cids : List CurrencyIdentifier)
    (locMap : CurrencyIdentifier → List Location) (loc : List Location)
    (l1 : Location) : Option (Except Err Unit) :=
  if is_valid_geolocation l1 = false then some (.error .invalidGeolocation)
  else
    match intraOk t l1 loc with
    | none => none
    | some false => some (.error .minSolarTripTimeViolated)
    | some true =>
      match polesNear t l1 with
      | none => none
      | some true => some (.error .minimumDistanceViolationToPole)
      | some false =>
        match datelineNear t l1 with
        | none => none
        | some true => some (.error .minimumDistanceViolationToDateLine)
        | some false =>
          match globalOk t l1 locMap cids with
          | none => none
          | some false => some (.error .minimumDistanceViolationToOtherCurrency)
          | some true => some (.ok ())

/-- The whole validation loop over the proposed locations (`loc` is the
full proposed set used by the intra-set scan, the last argument the
remaining iteration). -/
def checkAll (t : Trig) (cids : List CurrencyIdentifier)
    (locMap : CurrencyIdentifier → List Location) (loc : List Location) :
    List Location → Option (Except Err Unit)
  | [] => some (.ok ())
  | l1 :: rest =>
    match checkOne t cids locMap loc l1 with
    | none => none
    | some (.error e) => some (.error e)
    | some (.ok _) => checkAll t cids locMap loc rest

/-- The storage commitment performed after all checks pass. -/
def commit (st : State) (cid : CurrencyIdentifier) (loc : List Location)
    (bootstrappers : List AccountId) : State :=
  { currency_identifiers := st.currency_identifiers ++ [cid]
    locations := insertMap st.locations cid loc
    bootstrappers := insertMap st.bootstrappers cid bootstrappers
    currency_properties := insertMap st.currency_properties cid dummyProperties }

/-- `new_currency` from the source: `ensure_signed`, the duplicate
identifier check, the validation loop, then the four storage writes.
The result pairs the `DispatchResult` with the post-call storage;
`none` models a panic (no extrinsic result at all). -/
def new_currency (env : Env) (origin : Option AccountId) (st : State)
    (loc : List Location) (bootstrappers : List AccountId) :
    Option (Except Err Unit × State) :=
  match origin with
  | none => some (.error .badOrigin, st)
  | some _sender =>
    let cid := env.hash loc bootstrappers
    if st.currency_identifiers.contains cid then
      some (.error .currencyAlreadyRegistered, st)
    else
      match checkAll env.trig st.currency_identifiers st.locations loc loc with
      | none => none
      | some (.error e) => some (.error e, st)
      | some (.ok _) => some (.ok (), commit st cid loc bootstrappers)

/-! Arithmetic facts about the fixed-point layer. -/

theorem wrap64_id {x : Int} (h : x.natAbs < 2 ^ 63) : wrap64 x = x := by
  unfold wrap64; omega

theorem wrap32_id {x : Int} (h : x.natAbs < 2 ^ 31) : wrap32 x = x := by
  unfold wrap32; omega

theorem in64_true {x : Int} (h : x.natAbs < 2 ^ 63) : in64 x = true := by
  simp only [in64, decide_eq_true_eq]; omega

theorem fixmul_eq_tdiv {x y : Int} {X Y : Nat} (hx : x.natAbs ≤ X)
    (hy : y.natAbs ≤ Y) (hXY : X * Y / 2 ^ 32 < 2 ^ 63) :
    fixmul x y = (x * y).tdiv (2 ^ 32) ∧ (fixmul x y).natAbs ≤ X * Y / 2 ^ 32 := by
  have hab : (x * y).natAbs ≤ X * Y := by
    rw [Int.natAbs_mul]; exact Nat.mul_le_mul hx hy
  have hq : ((x * y).tdiv (2 ^ 32)).natAbs ≤ X * Y / 2 ^ 32 := by
    rw [Int.natAbs_tdiv]
    have e : ((2 : Int) ^ 32).natAbs = 2 ^ 32 := by norm_num
    rw [e]; exact Nat.div_le_div_right hab
  have hw : fixmul x y = (x * y).tdiv (2 ^ 32) := by
    unfold fixmul; exact wrap64_id (hq.trans_lt hXY)
  exact ⟨hw, by rw [hw]; exact hq⟩

theorem fixmul_comm (x y : Int) : fixmul x y = fixmul y x := by
  unfold fixmul; rw [mul_comm]

theorem fixmul_zero_right (x : Int) : fixmul x 0 = 0 := by
  unfold fixmul
  rw [mul_zero, Int.zero_tdiv]
  exact wrap64_id (by norm_num)

theorem fixmul_neg_left {x y : Int} {X Y : Nat} (hx : x.natAbs ≤ X)
    (hy : y.natAbs ≤ Y) (hXY : X * Y / 2 ^ 32 < 2 ^ 63) :
    fixmul (-x) y = -(fixmul x y) := by
  have h1 := (fixmul_eq_tdiv hx hy hXY).1
  have h2 := fixmul_eq_tdiv (x := -x) (by rw [Int.natAbs_neg]; exact hx) hy hXY
  rw [h2.1, h1, neg_mul, Int.neg_tdiv]

theorem fixdiv_two_eq {x : Int} (hx : x.natAbs < 2 ^ 63) :
    fixdiv x twoFixed = (x * 2 ^ 32).tdiv (2 ^ 33) ∧
      (fixdiv x twoFixed).natAbs ≤ x.natAbs := by
  have e2 : (twoFixed : Int) = 2 ^ 33 := by norm_num [twoFixed]
  have hq : ((x * 2 ^ 32).tdiv (2 ^ 33)).natAbs ≤ x.natAbs := by
    rw [Int.natAbs_tdiv, Int.natAbs_mul]
    have e1 : ((2 : Int) ^ 32).natAbs = 2 ^ 32 := by norm_num
    have e3 : ((2 : Int) ^ 33).natAbs = 2 ^ 33 := by norm_num
    rw [e1, e3]
    have hm : x.natAbs * 2 ^ 32 ≤ x.natAbs * 2 ^ 33 :=
      Nat.mul_le_mul_left x.natAbs (by norm_num)
    calc x.natAbs * 2 ^ 32 / 2 ^ 33
        ≤ x.natAbs * 2 ^ 33 / 2 ^ 33 := Nat.div_le_div_right hm
      _ = x.natAbs := Nat.mul_div_cancel x.natAbs (by norm_num)
  have hw : fixdiv x twoFixed = (x * 2 ^ 32).tdiv (2 ^ 33) := by
    unfold fixdiv; rw [e2]; exact wrap64_id (hq.trans_lt hx)
  exact ⟨hw, by rw [hw]; exact hq⟩

theorem fixdiv_two_neg {x : Int} (hx : x.natAbs < 2 ^ 63) :
    fixdiv (-x) twoFixed = -(fixdiv x twoFixed) := by
  have h1 := (fixdiv_two_eq hx).1
  have h2 := fixdiv_two_eq (x := -x) (by rw [Int.natAbs_neg]; exact hx)
  rw [h2.1, h1, neg_mul, Int.neg_tdiv]

theorem fixdiv_two_zero : fixdiv 0 twoFixed = 0 := by
  unfold fixdiv
  rw [zero_mul, Int.zero_tdiv]
  exact wrap64_id (by norm_num)

theorem radiansPerDegree_eq : radiansPerDegree = 74961320 := by decide

theorem checkedSub_some {x y : Int} (h : (x - y).natAbs < 2 ^ 63) :
    checkedSub x y = some (x - y) := by
  unfold checkedSub; rw [in64_true h]; rfl

theorem checkedFixDiv_one {x : Int} (h : x.natAbs < 2 ^ 63) :
    checkedFixDiv x (1 * 2 ^ 32) = some x := by
  unfold checkedFixDiv
  have e : (1 * 2 ^ 32 : Int) = 2 ^ 32 := by norm_num
  rw [e]
  have hc : (x * 2 ^ 32).tdiv (2 ^ 32) = x := Int.mul_tdiv_cancel x (by norm_num)
  rw [if_neg (by norm_num), hc, in64_true h]
  rfl

theorem checkedFixMul_240 {x : Int} (h : (x * 240).natAbs < 2 ^ 63) :
    checkedFixMul x (240 * 2 ^ 32) = some (x * 240) := by
  unfold checkedFixMul
  have e : x * (240 * 2 ^ 32) = x * 240 * 2 ^ 32 := by ring
  have hc : (x * (240 * 2 ^ 32)).tdiv (2 ^ 32) = x * 240 := by
    rw [e]; exact Int.mul_tdiv_cancel _ (by norm_num)
  rw [hc, in64_true h]
  rfl

theorem absOpt_some {x : Int} (h : x.natAbs < 2 ^ 63) : absOpt x = some |x| := by
  unfold absOpt; rw [if_neg (by omega)]

/-- Valid geolocations have latitude within 90 degrees and longitude
within 180 degrees (as fixed-point magnitudes). -/
theorem valid_bounds {l : Location} (h : is_valid_geolocation l = true) :
    l.lat.natAbs ≤ 90 * 2 ^ 32 ∧ l.lon.natAbs ≤ 180 * 2 ^ 32 := by
  unfold is_valid_geolocation NORTH_POLE SOUTH_POLE DATELINE_LON at h
  simp only [gt_iff_lt] at h
  split at h
  · exact absurd h (by simp)
  · split at h
    · exact absurd h (by simp)
    · split at h
      · exact absurd h (by simp)
      · split at h
        · exact absurd h (by simp)
        · rename_i h1 h2 h3 h4
          simp only [not_lt] at h1 h2 h3 h4
          constructor <;> omega

/-- Modelled from the spec: elementary algebraic facts about the
external transcendental primitives (sine is odd, squaring forgets the
sign, and the primitives vanish at zero), used wherever a claim's truth
depends on the external leaf rather than on this repository's code. -/
structure TrigSpec (t : Trig) : Prop where
  sin_odd : ∀ x, t.sin (-x) = -(t.sin x)
  presolve_neg : ∀ x, presolve t (-x) = presolve t x
  presolve_zero : presolve t 0 = 0
  sqrt_zero : t.sqrt 0 = some 0
  asin_zero : t.asin 0 = 0

set_option maxRecDepth 100000 in
theorem refTrig_spec : TrigSpec refTrig := by
  constructor
  · intro x; simp only [refTrig, clampUnit]; omega
  · intro x
    simp only [presolve, refTrig, Option.getD_some]
    unfold fixmul
    rw [neg_mul_neg]
  · simp only [presolve, refTrig, Option.getD_some]
    unfold fixmul
    rw [zero_mul, Int.zero_tdiv]
    exact wrap64_id (by norm_num)
  · decide
  · simp only [refTrig, clampUnit]; omega

theorem sin_zero_of_spec {t : Trig} (ht : TrigSpec t) : t.sin 0 = 0 := by
  have h := ht.sin_odd 0
  rw [neg_zero] at h
  omega

/-- The haversine argument at equal endpoints is exactly zero. -/
theorem havArg_self {t : Trig} (ht : TrigSpec t) (a : Location) :
    havArg t a a = 0 := by
  simp only [havArg]
  rw [sub_self, sub_self]
  have hw0 : wrap64 0 = 0 := wrap64_id (by norm_num)
  rw [hw0, fixdiv_two_zero, sin_zero_of_spec ht, ht.presolve_zero]
  have hmul0 : fixmul 0 radiansPerDegree = 0 := by
    rw [fixmul_comm]; exact fixmul_zero_right radiansPerDegree
  rw [hmul0, fixdiv_two_zero, sin_zero_of_spec ht, ht.presolve_zero,
    fixmul_zero_right, add_zero, hw0]

/-- Symmetry of the haversine argument for valid coordinates: the
latitude difference and longitude difference each flip sign, sine is
odd, and squaring forgets the sign. -/
theorem havArg_symm {t : Trig} (ht : TrigSpec t) {a b : Location}
    (ha : is_valid_geolocation a = true) (hb : is_valid_geolocation b = true) :
    havArg t b a = havArg t a b := by
  obtain ⟨haLat, haLon⟩ := valid_bounds ha
  obtain ⟨hbLat, hbLon⟩ := valid_bounds hb
  have hrpd : radiansPerDegree.natAbs ≤ 74961320 := by
    rw [radiansPerDegree_eq]; norm_num
  have hXY : (90 * 2 ^ 32) * 74961320 / 2 ^ 32 < 2 ^ 63 := by norm_num
  have hA := fixmul_eq_tdiv haLat hrpd hXY
  have hB := fixmul_eq_tdiv hbLat hrpd hXY
  -- latitude part
  have hABsub : (fixmul a.lat radiansPerDegree - fixmul b.lat radiansPerDegree).natAbs
      < 2 ^ 63 := by
    have := hA.2; have := hB.2; omega
  have hth1 : wrap64 (fixmul b.lat radiansPerDegree - fixmul a.lat radiansPerDegree)
      = -(wrap64 (fixmul a.lat radiansPerDegree - fixmul b.lat radiansPerDegree)) := by
    rw [wrap64_id (by omega), wrap64_id hABsub]; ring
  have hlat : t.sin (fixdiv (wrap64 (fixmul b.lat radiansPerDegree -
        fixmul a.lat radiansPerDegree)) twoFixed)
      = -(t.sin (fixdiv (wrap64 (fixmul a.lat radiansPerDegree -
        fixmul b.lat radiansPerDegree)) twoFixed)) := by
    rw [hth1, wrap64_id hABsub, fixdiv_two_neg hABsub, ht.sin_odd]
  -- longitude part
  have hLsub : (a.lon - b.lon).natAbs < 2 ^ 63 := by omega
  have hLval : (a.lon - b.lon).natAbs ≤ 360 * 2 ^ 32 := by omega
  have hXY2 : (360 * 2 ^ 32) * 74961320 / 2 ^ 32 < 2 ^ 63 := by norm_num
  have hL := fixmul_eq_tdiv hLval hrpd hXY2
  have hlam0 : wrap64 (b.lon - a.lon) = -(wrap64 (a.lon - b.lon)) := by
    rw [wrap64_id (by omega), wrap64_id hLsub]; ring
  have hlam : t.sin (fixdiv (fixmul (wrap64 (b.lon - a.lon)) radiansPerDegree)
        twoFixed)
      = -(t.sin (fixdiv (fixmul (wrap64 (a.lon - b.lon)) radiansPerDegree)
        twoFixed)) := by
    rw [hlam0, wrap64_id hLsub,
      fixmul_neg_left hLval hrpd hXY2,
      fixdiv_two_neg (by
        have := (fixmul_eq_tdiv hLval hrpd hXY2).2
        omega),
      ht.sin_odd]
  simp only [havArg]
  rw [hlat, hlam, ht.presolve_neg, ht.presolve_neg,
    fixmul_comm (t.cos (fixmul b.lat radiansPerDegree))
      (t.cos (fixmul a.lat radiansPerDegree))]

theorem hav_symm {t : Trig} (ht : TrigSpec t) {a b : Location}
    (ha : is_valid_geolocation a = true) (hb : is_valid_geolocation b = true) :
    haversine_distance t b a = haversine_distance t a b := by
  unfold haversine_distance
  rw [havArg_symm ht ha hb]

theorem hav_self {t : Trig} (ht : TrigSpec t) (a : Location) :
    haversine_distance t a a = some 0 := by
  unfold haversine_distance
  rw [havArg_self ht, ht.sqrt_zero]
  simp only [havFinish]
  rw [ht.asin_zero, fixmul_zero_right, fixmul_zero_right, Int.zero_fdiv]
  rfl

/-- Evaluation of `solar_trip_time` for valid coordinates, given the
distance value: all the checked operations succeed and the result is
`flight_time - |delta_lon * 240 s per degree|` (in `i32` arithmetic). -/
theorem stt_eval {t : Trig} {a b : Location} {d : Nat}
    (ha : is_valid_geolocation a = true) (hb : is_valid_geolocation b = true)
    (hd : haversine_distance t a b = some d) :
    solar_trip_time t a b =
      some (wrap32 (Int.tdiv (u32AsI32 d) MAX_SPEED_MPS -
        Int.fdiv |(a.lon - b.lon) * 240| (2 ^ 32))) := by
  obtain ⟨-, haLon⟩ := valid_bounds ha
  obtain ⟨-, hbLon⟩ := valid_bounds hb
  have hsub : (a.lon - b.lon).natAbs < 2 ^ 63 := by omega
  have hmul : ((a.lon - b.lon) * 240).natAbs < 2 ^ 63 := by
    rw [Int.natAbs_mul]
    have : ((240 : Int)).natAbs = 240 := by norm_num
    rw [this]; omega
  unfold solar_trip_time
  rw [hd]
  simp only [checkedSub_some hsub, checkedFixDiv_one hsub, checkedFixMul_240 hmul,
    absOpt_some hmul]

theorem stt_symm {t : Trig} (ht : TrigSpec t) {a b : Location}
    (ha : is_valid_geolocation a = true) (hb : is_valid_geolocation b = true) :
    solar_trip_time t b a = solar_trip_time t a b := by
  cases hcase : haversine_distance t a b with
  | none =>
    have hba : haversine_distance t b a = none := by
      rw [hav_symm ht ha hb, hcase]
    unfold solar_trip_time
    rw [hcase, hba]
  | some d =>
    have hba : haversine_distance t b a = some d := by
      rw [hav_symm ht ha hb, hcase]
    rw [stt_eval ha hb hcase, stt_eval hb ha hba,
      show (b.lon - a.lon) * 240 = -((a.lon - b.lon) * 240) by ring, abs_neg]

/-- When the external square root is total (the spec's internal
clamping), `haversine_distance` always returns a value. -/
theorem hav_total {t : Trig} (hsq : ∀ x, (t.sqrt x).isSome = true)
    (a b : Location) : ∃ d, haversine_distance t a b = some d := by
  unfold haversine_distance
  cases hs : t.sqrt (havArg t a b) with
  | none => exact absurd (hsq (havArg t a b)) (by rw [hs]; simp)
  | some s => exact ⟨havFinish t s, rfl⟩

/-- The conjunction of conditions `new_currency` checks for one member
location `l1` of the proposed set `loc` against registry snapshot
`(cids, locMap)`: geolocation validity, intra-set separation from every
value-distinct member, distance from both poles and the dateline probe,
and separation from every location of every registered currency. -/
def LocCond (t : Trig) (cids : List CurrencyIdentifier)
    (locMap : CurrencyIdentifier → List Location) (loc : List Location)
    (l1 : Location) : Prop :=
  is_valid_geolocation l1 = true ∧
  (∀ l2 ∈ loc, l2 ≠ l1 → ∀ v, solar_trip_time t l1 l2 = some v →
    MIN_SOLAR_TRIP_TIME_S ≤ v) ∧
  (∀ v, haversine_distance t l1 NORTH_POLE = some v → DATELINE_DISTANCE_M ≤ v) ∧
  (∀ v, haversine_distance t l1 SOUTH_POLE = some v → DATELINE_DISTANCE_M ≤ v) ∧
  (∀ v, haversine_distance t l1 ⟨l1.lat, DATELINE_LON⟩ = some v →
    DATELINE_DISTANCE_M ≤ v) ∧
  (∀ c ∈ cids, ∀ l2 ∈ locMap c, ∀ v, solar_trip_time t l1 l2 = some v →
    MIN_SOLAR_TRIP_TIME_S ≤ v)

theorem intraOk_true_elim {t : Trig} {l1 : Location} {loc : List Location}
    (h : intraOk t l1 loc = some true) :
    ∀ l2 ∈ loc, l2 ≠ l1 → ∀ v, solar_trip_time t l1 l2 = some v →
      MIN_SOLAR_TRIP_TIME_S ≤ v := by
  induction loc with
  | nil => intro l2 hmem; exact absurd hmem (List.not_mem_nil l2)
  | cons l2 rest ih =>
    intro l3 hmem hne v hstt
    unfold intraOk at h
    by_cases heq : l2 = l1
    · rw [if_pos heq] at h
      rcases List.mem_cons.1 hmem with hh | hh
      · exact absurd (hh ▸ heq) hne
      · exact ih h l3 hh hne v hstt
    · rw [if_neg heq] at h
      cases hs : solar_trip_time t l1 l2 with
      | none => simp [hs] at h
      | some s =>
        simp only [hs] at h
        by_cases hlt : s < MIN_SOLAR_TRIP_TIME_S
        · rw [if_pos hlt] at h; exact absurd h (by simp)
        · rw [if_neg hlt] at h
          rcases List.mem_cons.1 hmem with hh | hh
          · subst hh; rw [hs] at hstt; injection hstt with hv; omega
          · exact ih h l3 hh hne v hstt

theorem intraOk_false_elim {t : Trig} {l1 : Location} {loc : List Location}
    (h : intraOk t l1 loc = some false) :
    ∃ l2 ∈ loc, l2 ≠ l1 ∧ ∃ v, solar_trip_time t l1 l2 = some v ∧
      v < MIN_SOLAR_TRIP_TIME_S := by
  induction loc with
  | nil => exact absurd h (by simp [intraOk])
  | cons l2 rest ih =>
    unfold intraOk at h
    by_cases heq : l2 = l1
    · rw [if_pos heq] at h
      obtain ⟨l3, hmem, hx⟩ := ih h
      exact ⟨l3, List.mem_cons_of_mem l2 hmem, hx⟩
    · rw [if_neg heq] at h
      cases hs : solar_trip_time t l1 l2 with
      | none => simp [hs] at h
      | some s =>
        simp only [hs] at h
        by_cases hlt : s < MIN_SOLAR_TRIP_TIME_S
        · exact ⟨l2, List.mem_cons_self l2 rest, heq, s, hs, hlt⟩
        · rw [if_neg hlt] at h
          obtain ⟨l3, hmem, hx⟩ := ih h
          exact ⟨l3, List.mem_cons_of_mem l2 hmem, hx⟩

theorem intraOk_all_eq {t : Trig} {l1 : Location} {loc : List Location}
    (h : ∀ l2 ∈ loc, l2 = l1) : intraOk t l1 loc = some true := by
  induction loc with
  | nil => rfl
  | cons l2 rest ih =>
    unfold intraOk
    rw [if_pos (h l2 (List.mem_cons_self l2 rest))]
    exact ih fun l3 hmem => h l3 (List.mem_cons_of_mem l2 hmem)

theorem intraOk_ne_none {t : Trig} {l1 : Location} {loc : List Location}
    (h : ∀ l2 ∈ loc, l2 ≠ l1 → (solar_trip_time t l1 l2).isSome = true) :
    intraOk t l1 loc ≠ none := by
  induction loc with
  | nil => simp [intraOk]
  | cons l2 rest ih =>
    unfold intraOk
    have hrest : ∀ l2 ∈ rest, l2 ≠ l1 → (solar_trip_time t l1 l2).isSome = true :=
      fun l3 hmem => h l3 (List.mem_cons_of_mem l2 hmem)
    by_cases heq : l2 = l1
    · rw [if_pos heq]; exact ih hrest
    · rw [if_neg heq]
      cases hs : solar_trip_time t l1 l2 with
      | none =>
        have hsm := h l2 (List.mem_cons_self l2 rest) heq
        rw [hs] at hsm
        exact absurd hsm (by simp)
      | some s =>
        simp only
        by_cases hlt : s < MIN_SOLAR_TRIP_TIME_S
        · rw [if_pos hlt]; simp
        · rw [if_neg hlt]; exact ih hrest

theorem intraOk_false_intro {t : Trig} {l1 l2 : Location} {loc : List Location}
    (hmem : l2 ∈ loc) (hne : l2 ≠ l1) {v : Int}
    (hstt : solar_trip_time t l1 l2 = some v) (hlt : v < MIN_SOLAR_TRIP_TIME_S)
    (hall : ∀ l3 ∈ loc, l3 ≠ l1 → (solar_trip_time t l1 l3).isSome = true) :
    intraOk t l1 loc = some false := by
  induction loc with
  | nil => exact absurd hmem (List.not_mem_nil l2)
  | cons l0 rest ih =>
    unfold intraOk
    have hrest : ∀ l3 ∈ rest, l3 ≠ l1 → (solar_trip_time t l1 l3).isSome = true :=
      fun l3 hm => hall l3 (List.mem_cons_of_mem l0 hm)
    by_cases heq : l0 = l1
    · rw [if_pos heq]
      rcases List.mem_cons.1 hmem with hh | hh
      · exact absurd (hh ▸ heq) hne
      · exact ih hh hrest
    · rw [if_neg heq]
      cases hs : solar_trip_time t l1 l0 with
      | none =>
        have hsm := hall l0 (List.mem_cons_self l0 rest) heq
        rw [hs] at hsm
        exact absurd hsm (by simp)
      | some s =>
        simp only
        by_cases hlts : s < MIN_SOLAR_TRIP_TIME_S
        · rw [if_pos hlts]
        · rw [if_neg hlts]
          rcases List.mem_cons.1 hmem with hh | hh
          · subst hh; rw [hstt] at hs; injection hs with hv; omega
          · exact ih hh hrest

theorem polesNear_false_elim {t : Trig} {l1 : Location}
    (h : polesNear t l1 = some false) :
    (∀ v, haversine_distance t l1 NORTH_POLE = some v →
      DATELINE_DISTANCE_M ≤ v) ∧
    (∀ v, haversine_distance t l1 SOUTH_POLE = some v →
      DATELINE_DISTANCE_M ≤ v) := by
  unfold polesNear at h
  cases hN : haversine_distance t l1 NORTH_POLE with
  | none => simp [hN] at h
  | some dN =>
    simp only [hN] at h
    by_cases hlt : dN < DATELINE_DISTANCE_M
    · rw [if_pos hlt] at h; exact absurd h (by simp)
    · rw [if_neg hlt] at h
      cases hS : haversine_distance t l1 SOUTH_POLE with
      | none => simp [hS] at h
      | some dS =>
        simp only [hS] at h
        injection h with h
        have hSlt := of_decide_eq_false h
        constructor
        · intro v hv; injection hv with hv; omega
        · intro v hv; injection hv with hv; omega

theorem polesNear_true_elim {t : Trig} {l1 : Location}
    (h : polesNear t l1 = some true) :
    (∃ v, haversine_distance t l1 NORTH_POLE = some v ∧
      v < DATELINE_DISTANCE_M) ∨
    (∃ v, haversine_distance t l1 SOUTH_POLE = some v ∧
      v < DATELINE_DISTANCE_M) := by
  unfold polesNear at h
  cases hN : haversine_distance t l1 NORTH_POLE with
  | none => simp [hN] at h
  | some dN =>
    simp only [hN] at h
    by_cases hlt : dN < DATELINE_DISTANCE_M
    · exact Or.inl ⟨dN, rfl, hlt⟩
    · rw [if_neg hlt] at h
      cases hS : haversine_distance t l1 SOUTH_POLE with
      | none => simp [hS] at h
      | some dS =>
        simp only [hS] at h
        injection h with h
        exact Or.inr ⟨dS, rfl, of_decide_eq_true h⟩

theorem datelineNear_false_elim {t : Trig} {l1 : Location}
    (h : datelineNear t l1 = some false) :
    ∀ v, haversine_distance t l1 ⟨l1.lat, DATELINE_LON⟩ = some v →
      DATELINE_DISTANCE_M ≤ v := by
  unfold datelineNear at h
  intro v hv
  simp only [hv] at h
  injection h with h
  have hnl := of_decide_eq_false h
  omega

theorem datelineNear_true_elim {t : Trig} {l1 : Location}
    (h : datelineNear t l1 = some true) :
    ∃ v, haversine_distance t l1 ⟨l1.lat, DATELINE_LON⟩ = some v ∧
      v < DATELINE_DISTANCE_M := by
  unfold datelineNear at h
  cases hv : haversine_distance t l1 ⟨l1.lat, DATELINE_LON⟩ with
  | none => simp [hv] at h
  | some d =>
    simp only [hv] at h
    injection h with h
    exact ⟨d, rfl, of_decide_eq_true h⟩

theorem globalOkLocs_true_elim {t : Trig} {l1 : Location} {ls : List Location}
    (h : globalOkLocs t l1 ls = some true) :
    ∀ l2 ∈ ls, ∀ v, solar_trip_time t l1 l2 = some v →
      MIN_SOLAR_TRIP_TIME_S ≤ v := by
  induction ls with
  | nil => intro l2 hmem; exact absurd hmem (List.not_mem_nil l2)
  | cons l2 rest ih =>
    intro l3 hmem v hstt
    unfold globalOkLocs at h
    cases hs : solar_trip_time t l1 l2 with
    | none => simp [hs] at h
    | some s =>
      simp only [hs] at h
      by_cases hlt : s < MIN_SOLAR_TRIP_TIME_S
      · rw [if_pos hlt] at h; exact absurd h (by simp)
      · rw [if_neg hlt] at h
        rcases List.mem_cons.1 hmem with hh | hh
        · subst hh; rw [hs] at hstt; injection hstt with hv; omega
        · exact ih h l3 hh v hstt

theorem globalOkLocs_false_elim {t : Trig} {l1 : Location} {ls : List Location}
    (h : globalOkLocs t l1 ls = some false) :
    ∃ l2 ∈ ls, ∃ v, solar_trip_time t l1 l2 = some v ∧
      v < MIN_SOLAR_TRIP_TIME_S := by
  induction ls with
  | nil => exact absurd h (by simp [globalOkLocs])
  | cons l2 rest ih =>
    unfold globalOkLocs at h
    cases hs : solar_trip_time t l1 l2 with
    | none => simp [hs] at h
    | some s =>
      simp only [hs] at h
      by_cases hlt : s < MIN_SOLAR_TRIP_TIME_S
      · exact ⟨l2, List.mem_cons_self l2 rest, s, hs, hlt⟩
      · rw [if_neg hlt] at h
        obtain ⟨l3, hmem, hx⟩ := ih h
        exact ⟨l3, List.mem_cons_of_mem l2 hmem, hx⟩

theorem globalOk_true_elim {t : Trig} {l1 : Location}
    {locMap : CurrencyIdentifier → List Location}
    {cids : List CurrencyIdentifier}
    (h : globalOk t l1 locMap cids = some true) :
    ∀ c ∈ cids, ∀ l2 ∈ locMap c, ∀ v, solar_trip_time t l1 l2 = some v →
      MIN_SOLAR_TRIP_TIME_S ≤ v := by
  induction cids with
  | nil => intro c hmem; exact absurd hmem (List.not_mem_nil c)
  | cons c rest ih =>
    intro c2 hmem l2 hl2 v hstt
    unfold globalOk at h
    cases hg : globalOkLocs t l1 (locMap c) with
    | none => simp [hg] at h
    | some bv =>
      cases bv with
      | false => simp [hg] at h
      | true =>
        simp only [hg] at h
        rcases List.mem_cons.1 hmem with hh | hh
        · subst hh; exact globalOkLocs_true_elim hg l2 hl2 v hstt
        · exact ih h c2 hh l2 hl2 v hstt

theorem globalOk_false_elim {t : Trig} {l1 : Location}
    {locMap : CurrencyIdentifier → List Location}
    {cids : List CurrencyIdentifier}
    (h : globalOk t l1 locMap cids = some false) :
    ∃ c ∈ cids, ∃ l2 ∈ locMap c, ∃ v, solar_trip_time t l1 l2 = some v ∧
      v < MIN_SOLAR_TRIP_TIME_S := by
  induction cids with
  | nil => exact absurd h (by simp [globalOk])
  | cons c rest ih =>
    unfold globalOk at h
    cases hg : globalOkLocs t l1 (locMap c) with
    | none => simp [hg] at h
    | some bv =>
      cases bv with
      | false =>
        obtain ⟨l2, hl2, hx⟩ := globalOkLocs_false_elim hg
        exact ⟨c, List.mem_cons_self c rest, l2, hl2, hx⟩
      | true =>
        simp only [hg] at h
        obtain ⟨c2, hmem, hx⟩ := ih h
        exact ⟨c2, List.mem_cons_of_mem c hmem, hx⟩

theorem checkOne_ok_elim {t : Trig} {cids : List CurrencyIdentifier}
    {locMap : CurrencyIdentifier → List Location} {loc : List Location}
    {l1 : Location} (h : checkOne t cids locMap loc l1 = some (.ok ())) :
    LocCond t cids locMap loc l1 := by
  unfold checkOne at h
  cases hval : is_valid_geolocation l1 with
  | false => rw [if_pos hval] at h; exact absurd h (by simp)
  | true =>
    rw [if_neg (by rw [hval]; simp)] at h
    cases hintra : intraOk t l1 loc with
    | none => simp [hintra] at h
    | some bi =>
      cases bi with
      | false => simp [hintra] at h
      | true =>
        simp only [hintra] at h
        cases hpoles : polesNear t l1 with
        | none => simp [hpoles] at h
        | some bp =>
          cases bp with
          | true => simp [hpoles] at h
          | false =>
            simp only [hpoles] at h
            cases hdate : datelineNear t l1 with
            | none => simp [hdate] at h
            | some bd =>
              cases bd with
              | true => simp [hdate] at h
              | false =>
                simp only [hdate] at h
                cases hglob : globalOk t l1 locMap cids with
                | none => simp [hglob] at h
                | some bg =>
                  cases bg with
                  | false => simp [hglob] at h
                  | true =>
                    obtain ⟨hN, hS⟩ := polesNear_false_elim hpoles
                    exact ⟨hval, intraOk_true_elim hintra, hN, hS,
                      datelineNear_false_elim hdate, globalOk_true_elim hglob⟩

theorem checkOne_error_elim {t : Trig} {cids : List CurrencyIdentifier}
    {locMap : CurrencyIdentifier → List Location} {loc : List Location}
    {l1 : Location} {e : Err}
    (h : checkOne t cids locMap loc l1 = some (.error e)) :
    ¬ LocCond t cids locMap loc l1 := by
  intro hc
  obtain ⟨hval, hintra, hN, hS, hdate, hglob⟩ := hc
  unfold checkOne at h
  rw [if_neg (by rw [hval]; simp)] at h
  cases hi : intraOk t l1 loc with
  | none => simp [hi] at h
  | some bi =>
    cases bi with
    | false =>
      obtain ⟨l2, hmem, hne, v, hstt, hlt⟩ := intraOk_false_elim hi
      have := hintra l2 hmem hne v hstt
      omega
    | true =>
      simp only [hi] at h
      cases hp : polesNear t l1 with
      | none => simp [hp] at h
      | some bp =>
        cases bp with
        | true =>
          rcases polesNear_true_elim hp with ⟨v, hv, hlt⟩ | ⟨v, hv, hlt⟩
          · have := hN v hv; omega
          · have := hS v hv; omega
        | false =>
          simp only [hp] at h
          cases hd : datelineNear t l1 with
          | none => simp [hd] at h
          | some bd =>
            cases bd with
            | true =>
              obtain ⟨v, hv, hlt⟩ := datelineNear_true_elim hd
              have := hdate v hv; omega
            | false =>
              simp only [hd] at h
              cases hg : globalOk t l1 locMap cids with
              | none => simp [hg] at h
              | some bg =>
                cases bg with
                | false =>
                  obtain ⟨c, hcmem, l2, hl2, v, hstt, hlt⟩ := globalOk_false_elim hg
                  have := hglob c hcmem l2 hl2 v hstt
                  omega
                | true => simp [hg] at h

theorem checkOne_ok_intro {t : Trig} {cids : List CurrencyIdentifier}
    {locMap : CurrencyIdentifier → List Location} {loc : List Location}
    {l1 : Location} (hval : is_valid_geolocation l1 = true)
    (hintra : intraOk t l1 loc = some true)
    (hpoles : polesNear t l1 = some false)
    (hdate : datelineNear t l1 = some false)
    (hglob : globalOk t l1 locMap cids = some true) :
    checkOne t cids locMap loc l1 = some (.ok ()) := by
  unfold checkOne
  rw [if_neg (by rw [hval]; simp)]
  simp only [hintra, hpoles, hdate, hglob]

theorem checkAll_ok_elim {t : Trig} {cids : List CurrencyIdentifier}
    {locMap : CurrencyIdentifier → List Location} {loc rest : List Location}
    (h : checkAll t cids locMap loc rest = some (.ok ())) :
    ∀ l1 ∈ rest, LocCond t cids locMap loc l1 := by
  induction rest with
  | nil => intro l1 hmem; exact absurd hmem (List.not_mem_nil l1)
  | cons l1 rest2 ih =>
    intro l3 hmem
    unfold checkAll at h
    cases hc : checkOne t cids locMap loc l1 with
    | none => simp [hc] at h
    | some r =>
      cases r with
      | error e => simp [hc] at h
      | ok u =>
        simp only [hc] at h
        rcases List.mem_cons.1 hmem with hh | hh
        · subst hh; exact checkOne_ok_elim hc
        · exact ih h l3 hh

theorem checkAll_error_elim {t : Trig} {cids : List CurrencyIdentifier}
    {locMap : CurrencyIdentifier → List Location} {loc rest : List Location}
    {e : Err} (h : checkAll t cids locMap loc rest = some (.error e)) :
    ∃ l1 ∈ rest, ¬ LocCond t cids locMap loc l1 := by
  induction rest with
  | nil => exact absurd h (by simp [checkAll])
  | cons l1 rest2 ih =>
    unfold checkAll at h
    cases hc : checkOne t cids locMap loc l1 with
    | none => simp [hc] at h
    | some r =>
      cases r with
      | error e2 =>
        exact ⟨l1, List.mem_cons_self l1 rest2, checkOne_error_elim hc⟩
      | ok u =>
        simp only [hc] at h
        obtain ⟨l3, hmem, hx⟩ := ih h
        exact ⟨l3, List.mem_cons_of_mem l1 hmem, hx⟩

theorem checkAll_ok_intro {t : Trig} {cids : List CurrencyIdentifier}
    {locMap : CurrencyIdentifier → List Location} {loc rest : List Location}
    (h : ∀ l1 ∈ rest, checkOne t cids locMap loc l1 = some (.ok ())) :
    checkAll t cids locMap loc rest = some (.ok ()) := by
  induction rest with
  | nil => rfl
  | cons l1 rest2 ih =>
    unfold checkAll
    simp only [h l1 (List.mem_cons_self l1 rest2)]
    exact ih fun l3 hmem => h l3 (List.mem_cons_of_mem l1 hmem)

/-- If for every remaining location all checks other than the intra-set
scan pass (and no intra-set scan panics), and some location fails its
intra-set scan, the loop reports the minimum-solar-trip-time error. -/
theorem checkAll_minSolar {t : Trig} {cids : List CurrencyIdentifier}
    {locMap : CurrencyIdentifier → List Location} {loc rest : List Location}
    (hok : ∀ l1 ∈ rest, is_valid_geolocation l1 = true ∧
      polesNear t l1 = some false ∧ datelineNear t l1 = some false ∧
      globalOk t l1 locMap cids = some true ∧ intraOk t l1 loc ≠ none)
    (hex : ∃ l1 ∈ rest, intraOk t l1 loc = some false) :
    checkAll t cids locMap loc rest =
      some (.error .minSolarTripTimeViolated) := by
  induction rest with
  | nil =>
    obtain ⟨l1, hm, -⟩ := hex
    exact absurd hm (List.not_mem_nil l1)
  | cons l1 rest2 ih =>
    obtain ⟨hval, hp, hd, hg, hin⟩ := hok l1 (List.mem_cons_self l1 rest2)
    unfold checkAll
    cases hi : intraOk t l1 loc with
    | none => exact absurd hi hin
    | some bi =>
      cases bi with
      | false =>
        have hc : checkOne t cids locMap loc l1 =
            some (.error .minSolarTripTimeViolated) := by
          unfold checkOne
          rw [if_neg (by rw [hval]; simp)]
          simp only [hi]
        simp only [hc]
      | true =>
        have hc : checkOne t cids locMap loc l1 = some (.ok ()) :=
          checkOne_ok_intro hval hi hp hd hg
        simp only [hc]
        apply ih
        · exact fun l3 hm => hok l3 (List.mem_cons_of_mem l1 hm)
        · obtain ⟨l0, hm, hfalse⟩ := hex
          rcases List.mem_cons.1 hm with hh | hh
          · subst hh; rw [hi] at hfalse; exact absurd hfalse (by simp)
          · exact ⟨l0, hh, hfalse⟩

/-- Characterisation of acceptance: for a signed origin, when the call
returns at all, it succeeds exactly when the identifier is fresh and
every member location satisfies all the per-location conditions. -/
theorem new_currency_ok_iff {env : Env} {s : AccountId} {st : State}
    {loc : List Location} {bs : List AccountId}
    {r : Except Err Unit × State}
    (h : new_currency env (some s) st loc bs = some r) :
    r.1 = .ok () ↔
      (st.currency_identifiers.contains (env.hash loc bs) = false ∧
        ∀ l1 ∈ loc,
          LocCond env.trig st.currency_identifiers st.locations loc l1) := by
  unfold new_currency at h
  cases hct : st.currency_identifiers.contains (env.hash loc bs) with
  | true =>
    simp only [hct, if_true] at h
    have hr := Option.some.inj h
    constructor
    · intro hok; rw [← hr] at hok; exact absurd hok (by simp)
    · intro hc; exact absurd hc.1 (by simp)
  | false =>
    simp only [hct, Bool.false_eq_true, if_false] at h
    cases hca : checkAll env.trig st.currency_identifiers st.locations loc loc with
    | none => simp [hca] at h
    | some res =>
      cases res with
      | error e =>
        simp only [hca] at h
        have hr := Option.some.inj h
        constructor
        · intro hok; rw [← hr] at hok; exact absurd hok (by simp)
        · intro hc
          obtain ⟨l1, hm, hnc⟩ := checkAll_error_elim hca
          exact absurd (hc.2 l1 hm) hnc
      | ok u =>
        cases u
        simp only [hca] at h
        have hr := Option.some.inj h
        constructor
        · intro _; exact ⟨rfl, checkAll_ok_elim hca⟩
        · intro _; rw [← hr]

/-- On any returned error, the storage is untouched. -/
theorem new_currency_error_state {env : Env} {origin : Option AccountId}
    {st : State} {loc : List Location} {bs : List AccountId} {e : Err}
    {st2 : State}
    (h : new_currency env origin st loc bs = some (.error e, st2)) :
    st2 = st := by
  unfold new_currency at h
  cases origin with
  | none =>
    simp only [Option.some.injEq, Prod.mk.injEq] at h
    exact h.2.symm
  | some s =>
    cases hct : st.currency_identifiers.contains (env.hash loc bs) with
    | true =>
      simp only [hct, if_true, Option.some.injEq, Prod.mk.injEq] at h
      exact h.2.symm
    | false =>
      simp only [hct, Bool.false_eq_true, if_false] at h
      cases hca : checkAll env.trig st.currency_identifiers st.locations loc loc with
      | none => simp [hca] at h
      | some res =>
        cases res with
        | error e2 =>
          simp only [hca, Option.some.injEq, Prod.mk.injEq] at h
          exact h.2.symm
        | ok u =>
          cases u
          simp only [hca, Option.some.injEq, Prod.mk.injEq] at h
          exact absurd h.1 (by simp)

/-- On success, the new storage is exactly the committed one. -/
theorem new_currency_ok_state {env : Env} {origin : Option AccountId}
    {st : State} {loc : List Location} {bs : List AccountId} {st2 : State}
    (h : new_currency env origin st loc bs = some (.ok (), st2)) :
    st2 = commit st (env.hash loc bs) loc bs := by
  unfold new_currency at h
  cases origin with
  | none =>
    simp only [Option.some.injEq, Prod.mk.injEq] at h
    exact absurd h.1 (by simp)
  | some s =>
    cases hct : st.currency_identifiers.contains (env.hash loc bs) with
    | true =>
      simp only [hct, if_true, Option.some.injEq, Prod.mk.injEq] at h
      exact absurd h.1 (by simp)
    | false =>
      simp only [hct, Bool.false_eq_true, if_false] at h
      cases hca : checkAll env.trig st.currency_identifiers st.locations loc loc with
      | none => simp [hca] at h
      | some res =>
        cases res with
        | error e2 =>
          simp only [hca, Option.some.injEq, Prod.mk.injEq] at h
          exact absurd h.1 (by simp)
        | ok u =>
          cases u
          simp only [hca, Option.some.injEq, Prod.mk.injEq] at h
          exact h.2.symm

/-! Concrete reference objects, used to evaluate the theorems on
explicit inputs. -/

/-- A concrete digest stand-in for the abstract `blake2_256`-based
identifier computation. -/
def refHash : List Location → List AccountId → CurrencyIdentifier :=
  fun _ _ => (0 : Nat)

/-- Reference environment: the spec-modelled primitives plus the
concrete digest. -/
def refEnv : Env := ⟨refTrig, refHash⟩

/-- Empty registry. -/
def refState : State :=
  ⟨[], fun _ => [], fun _ => [], fun _ => defaultProperties⟩

/-- The equator point at zero longitude. -/
def locEq0 : Location := ⟨0, 0⟩

/-- The equator point at one degree longitude. -/
def locEq1 : Location := ⟨0, 1 * 2 ^ 32⟩

/-- The equator point one longitude bit east of `locEq0` (about a
hundredth of a millimeter). -/
def locEqBit : Location := ⟨0, 1⟩

/-- An invalid location: longitude 1000 degrees. -/
def locBad : Location := ⟨0, 1000 * 2 ^ 32⟩

/-- Registry already holding the identifier `0`. -/
def refState1 : State :=
  ⟨[0], fun _ => [], fun _ => [], fun _ => defaultProperties⟩

/-! Claim theorems. -/

/-- C1: for every proposed location set, bootstrapper list and registry
state (under a signed origin, whenever the call returns rather than
panicking), `new_currency` succeeds if and only if the recomputed
identifier is not already registered and every member location is a
valid geolocation, keeps the minimum solar trip time to every
value-distinct member, keeps the minimum distance from both poles and
from its dateline probe point, and keeps the minimum solar trip time to
every location of every registered set.  Success is exactly this
order-independent conjunction, so the order of the checks can only
change which rejection reason is reported, never the final
accept/reject outcome. -/
theorem c1_accept_iff_all_checks (env : Env) (s : AccountId) (st : State)
    (loc : List Location) (bs : List AccountId)
    (r : Except Err Unit × State)
    (h : new_currency env (some s) st loc bs = some r) :
    r.1 = .ok () ↔
      (st.currency_identifiers.contains (env.hash loc bs) = false ∧
        ∀ l1 ∈ loc,
          LocCond env.trig st.currency_identifiers st.locations loc l1) :=
  new_currency_ok_iff h

set_option maxRecDepth 1000000 in
theorem c1_accept_iff_all_checks_witness :
    (((Except.ok (), commit refState (refEnv.hash [locEq0] []) [locEq0] []) :
        Except Err Unit × State).1 = Except.ok ()) ↔
      (refState.currency_identifiers.contains (refEnv.hash [locEq0] []) = false ∧
        ∀ l1 ∈ [locEq0],
          LocCond refEnv.trig refState.currency_identifiers
            refState.locations [locEq0] l1) :=
  c1_accept_iff_all_checks refEnv 0 refState [locEq0] [] _ (by rfl)

/-- C2: with the spec-modelled external primitives (which clamp
arithmetic domain issues internally), `haversine_distance` is total:
it returns an unsigned meter value for every pair of coordinates; an
arcsine argument outside `[-1, 1]` is treated exactly as its clamped
value rather than propagated as a failure, and the square root always
yields a value. -/
theorem c2_haversine_total_and_clamped :
    (∀ a b : Location, (haversine_distance refTrig a b).isSome = true) ∧
    (∀ x : Int, refTrig.asin x = refTrig.asin (clampUnit x)) ∧
    (∀ x : Int, (refTrig.sqrt x).isSome = true) := by
  refine ⟨fun a b => rfl, fun x => ?_, fun x => rfl⟩
  simp only [refTrig, clampUnit]
  omega

set_option maxRecDepth 1000000 in
/-- C3 counterexample: the proposed set `[locEq0, locBad]` contains the
invalid coordinate `locBad` (longitude 1000 degrees), yet `new_currency`
rejects it with the intra-set solar-trip-time reason, not the
invalid-geolocation reason: the valid first location's intra-set scan
feeds the not-yet-validated `locBad` to `solar_trip_time` before
`locBad`'s own validity check runs. -/
theorem c3_validity_first_counterexample :
    new_currency refEnv (some 0) refState [locEq0, locBad] [] =
      some (.error .minSolarTripTimeViolated, refState) ∧
    is_valid_geolocation locBad = false :=
  ⟨rfl, rfl⟩

/-- C3 (amended): every proposed set containing an invalid coordinate is
rejected — never accepted — and when the first failing check reached is
the validity check (in particular whenever the set's first location is
invalid), the reason is invalid-geolocation; but the validity check runs
per iteration, so an earlier valid location's intra-set scan may pass a
not-yet-validated coordinate to `solar_trip_time` as its second
argument, and the rejection reason is then the intra-set one. -/
theorem c3_invalid_always_rejected :
    (∀ (env : Env) (origin : Option AccountId) (st : State)
        (loc : List Location) (bs : List AccountId)
        (r : Except Err Unit × State),
      new_currency env origin st loc bs = some r →
      (∃ l ∈ loc, is_valid_geolocation l = false) → r.1 ≠ .ok ()) ∧
    (∀ (env : Env) (s : AccountId) (st : State) (lbad : Location)
        (rest : List Location) (bs : List AccountId),
      is_valid_geolocation lbad = false →
      st.currency_identifiers.contains (env.hash (lbad :: rest) bs) = false →
      new_currency env (some s) st (lbad :: rest) bs =
        some (.error .invalidGeolocation, st)) := by
  constructor
  · intro env origin st loc bs r h hex hok
    cases origin with
    | none =>
      unfold new_currency at h
      have hr := Option.some.inj h
      rw [← hr] at hok
      exact absurd hok (by simp)
    | some s =>
      obtain ⟨-, hall⟩ := (new_currency_ok_iff h).1 hok
      obtain ⟨l, hmem, hbad⟩ := hex
      have := (hall l hmem).1
      rw [this] at hbad
      exact absurd hbad (by simp)
  · intro env s st lbad rest bs hbad hct
    have hco : checkOne env.trig st.currency_identifiers st.locations
        (lbad :: rest) lbad = some (.error .invalidGeolocation) := by
      unfold checkOne; rw [if_pos hbad]
    have hca : checkAll env.trig st.currency_identifiers st.locations
        (lbad :: rest) (lbad :: rest) = some (.error .invalidGeolocation) := by
      unfold checkAll; simp only [hco]
    unfold new_currency
    simp only [hct, Bool.false_eq_true, if_false, hca]

set_option maxRecDepth 1000000 in
theorem c3_invalid_always_rejected_witness :
    ((Except.error Err.minSolarTripTimeViolated, refState).1 ≠
      Except.ok ()) ∧
    new_currency refEnv (some 0) refState [locBad, locEq0] [] =
      some (.error .invalidGeolocation, refState) :=
  ⟨c3_invalid_always_rejected.1 refEnv (some 0) refState [locEq0, locBad] []
      _ rfl ⟨locBad, by simp, rfl⟩,
    c3_invalid_always_rejected.2 refEnv 0 refState locBad [locEq0] [] rfl rfl⟩

/-- C4: for valid coordinates (and a total external square root),
`solar_trip_time(from, to)` is `flight_time - |longitude time offset|`:
the haversine distance divided by the maximum adversary speed of 83 m/s
with truncating integer division, minus the absolute value of the
signed fixed-point longitude difference times 240 seconds per degree
(rescaled from the 32 fractional bits); the result is a signed number
of seconds and the computation never fails. -/
theorem c4_solar_trip_time_formula (t : Trig) (a b : Location)
    (hsq : ∀ x, (t.sqrt x).isSome = true)
    (ha : is_valid_geolocation a = true)
    (hb : is_valid_geolocation b = true) :
    ∃ d, haversine_distance t a b = some d ∧
      (d < 2 ^ 31 → solar_trip_time t a b =
        some (Int.tdiv (d : Int) MAX_SPEED_MPS -
          Int.fdiv |(a.lon - b.lon) * 240| (2 ^ 32))) := by
  obtain ⟨d, hd⟩ := hav_total hsq a b
  refine ⟨d, hd, fun hdlt => ?_⟩
  rw [stt_eval ha hb hd]
  have hu : u32AsI32 d = (d : Int) := by unfold u32AsI32; rw [if_pos hdlt]
  rw [hu]
  obtain ⟨-, haLon⟩ := valid_bounds ha
  obtain ⟨-, hbLon⟩ := valid_bounds hb
  have hDeq : Int.fdiv |(a.lon - b.lon) * 240| (2 ^ 32)
      = (((a.lon - b.lon) * 240).natAbs / 2 ^ 32 : Nat) := by
    rw [Int.abs_eq_natAbs, Int.fdiv_eq_ediv _ (by norm_num),
      show ((2 : Int) ^ 32) = ((2 ^ 32 : Nat) : Int) by norm_num]
    exact (Int.ofNat_div _ _).symm
  have hDle : ((a.lon - b.lon) * 240).natAbs / 2 ^ 32 ≤ 86400 := by
    have h1 : ((a.lon - b.lon) * 240).natAbs ≤ 360 * 2 ^ 32 * 240 := by
      rw [Int.natAbs_mul]
      have h240 : ((240 : Int)).natAbs = 240 := rfl
      rw [h240]
      have h2 : (a.lon - b.lon).natAbs ≤ 360 * 2 ^ 32 := by omega
      exact Nat.mul_le_mul_right 240 h2
    calc ((a.lon - b.lon) * 240).natAbs / 2 ^ 32
        ≤ 360 * 2 ^ 32 * 240 / 2 ^ 32 := Nat.div_le_div_right h1
      _ = 86400 := by norm_num
  have htf : (Int.tdiv (d : Int) MAX_SPEED_MPS).natAbs = d / 83 := by
    unfold MAX_SPEED_MPS
    rw [Int.natAbs_tdiv]
    rfl
  have htfn : 0 ≤ Int.tdiv (d : Int) MAX_SPEED_MPS := by
    unfold MAX_SPEED_MPS
    exact Int.tdiv_nonneg (by omega) (by norm_num)
  apply congrArg
  apply wrap32_id
  rw [hDeq]
  omega

set_option maxRecDepth 1000000 in
theorem c4_solar_trip_time_formula_witness :
    (∀ x, (refTrig.sqrt x).isSome = true) ∧
    is_valid_geolocation locEq0 = true ∧
    is_valid_geolocation locEq1 = true ∧
    ∃ d, haversine_distance refTrig locEq0 locEq1 = some d ∧
      (d < 2 ^ 31 → solar_trip_time refTrig locEq0 locEq1 =
        some (Int.tdiv (d : Int) MAX_SPEED_MPS -
          Int.fdiv |(locEq0.lon - locEq1.lon) * 240| (2 ^ 32))) :=
  ⟨fun x => rfl, rfl, rfl,
    c4_solar_trip_time_formula refTrig locEq0 locEq1 (fun x => rfl) rfl rfl⟩

/-- C5: if `new_currency` accepts a proposed set then every ordered pair
of value-distinct members has solar trip time at least the minimum; and
a proposed set containing such a pair below the minimum — when the
duplicate-identifier, validity, pole, dateline and other-currency checks
all pass and no trip-time computation panics — is rejected with the
intra-set (minimum solar trip time violated) reason. -/
theorem c5_intra_set_separation :
    (∀ (env : Env) (origin : Option AccountId) (st : State)
        (loc : List Location) (bs : List AccountId) (st2 : State),
      new_currency env origin st loc bs = some (.ok (), st2) →
      ∀ l1 ∈ loc, ∀ l2 ∈ loc, l2 ≠ l1 → ∀ v,
        solar_trip_time env.trig l1 l2 = some v →
        MIN_SOLAR_TRIP_TIME_S ≤ v) ∧
    (∀ (env : Env) (s : AccountId) (st : State) (loc : List Location)
        (bs : List AccountId),
      st.currency_identifiers.contains (env.hash loc bs) = false →
      (∀ l1 ∈ loc, is_valid_geolocation l1 = true ∧
        polesNear env.trig l1 = some false ∧
        datelineNear env.trig l1 = some false ∧
        globalOk env.trig l1 st.locations st.currency_identifiers = some true) →
      (∀ l1 ∈ loc, ∀ l2 ∈ loc, l2 ≠ l1 →
        (solar_trip_time env.trig l1 l2).isSome = true) →
      (∃ l1 ∈ loc, ∃ l2 ∈ loc, l2 ≠ l1 ∧ ∃ v,
        solar_trip_time env.trig l1 l2 = some v ∧
        v < MIN_SOLAR_TRIP_TIME_S) →
      new_currency env (some s) st loc bs =
        some (.error .minSolarTripTimeViolated, st)) := by
  constructor
  · intro env origin st loc bs st2 h l1 h1 l2 h2 hne v hstt
    cases origin with
    | none =>
      unfold new_currency at h
      simp only [Option.some.injEq, Prod.mk.injEq] at h
      exact absurd h.1 (by simp)
    | some s =>
      exact (((new_currency_ok_iff h).1 rfl).2 l1 h1).2.1 l2 h2 hne v hstt
  · intro env s st loc bs hct hothers hsome hex
    have hca : checkAll env.trig st.currency_identifiers st.locations loc loc =
        some (.error .minSolarTripTimeViolated) := by
      apply checkAll_minSolar
      · intro l1 hm
        obtain ⟨hv, hp, hd, hg⟩ := hothers l1 hm
        exact ⟨hv, hp, hd, hg, intraOk_ne_none (hsome l1 hm)⟩
      · obtain ⟨l1, hm1, l2, hm2, hne, v, hstt, hlt⟩ := hex
        exact ⟨l1, hm1, intraOk_false_intro hm2 hne hstt hlt (hsome l1 hm1)⟩
    unfold new_currency
    simp only [hct, Bool.false_eq_true, if_false, hca]

set_option maxRecDepth 1000000 in
theorem c5_intra_set_separation_witness :
    new_currency refEnv (some 0) refState [locEq0, locEqBit] [] =
      some (.error .minSolarTripTimeViolated, refState) :=
  c5_intra_set_separation.2 refEnv 0 refState [locEq0, locEqBit] [] rfl
    (by
      intro l1 hm
      rcases List.mem_cons.1 hm with rfl | hm2
      · exact ⟨rfl, rfl, rfl, rfl⟩
      · rcases List.mem_cons.1 hm2 with rfl | hm3
        · exact ⟨rfl, rfl, rfl, rfl⟩
        · exact absurd hm3 (List.not_mem_nil l1))
    (by
      intro l1 hm1 l2 hm2 hne
      rcases List.mem_cons.1 hm1 with rfl | hm1b
      · rcases List.mem_cons.1 hm2 with rfl | hm2b
        · rfl
        · rcases List.mem_cons.1 hm2b with rfl | hm2c
          · rfl
          · exact absurd hm2c (List.not_mem_nil l2)
      · rcases List.mem_cons.1 hm1b with rfl | hm1c
        · rcases List.mem_cons.1 hm2 with rfl | hm2b
          · rfl
          · rcases List.mem_cons.1 hm2b with rfl | hm2c
            · rfl
            · exact absurd hm2c (List.not_mem_nil l2)
        · exact absurd hm1c (List.not_mem_nil l1))
    ⟨locEq0, by simp, locEqBit, by simp, by decide, 0, rfl, by decide⟩

/-- C6: whenever `new_currency` returns a rejection, the storage (the
identifier list and the three maps) is exactly as before the call:
commitment is all-or-nothing and happens only after every check has
passed. -/
theorem c6_rejection_no_mutation (env : Env) (origin : Option AccountId)
    (st : State) (loc : List Location) (bs : List AccountId) (e : Err)
    (st2 : State)
    (h : new_currency env origin st loc bs = some (.error e, st2)) :
    st2 = st :=
  new_currency_error_state h

set_option maxRecDepth 1000000 in
theorem c6_rejection_no_mutation_witness :
    new_currency refEnv (some 0) refState1 [] [] =
      some (.error .currencyAlreadyRegistered, refState1) ∧
    refState1 = refState1 :=
  ⟨rfl, c6_rejection_no_mutation refEnv (some 0) refState1 [] []
    .currencyAlreadyRegistered refState1 rfl⟩

/-- C7: for valid coordinates, under the spec-modelled algebraic
properties of the external primitives (odd sine, sign-forgetting square,
and the fixed toward-zero rounding rule), both primitives are symmetric
in their two arguments. -/
theorem c7_symmetry (t : Trig) (a b : Location) (ht : TrigSpec t)
    (ha : is_valid_geolocation a = true)
    (hb : is_valid_geolocation b = true) :
    haversine_distance t a b = haversine_distance t b a ∧
    solar_trip_time t a b = solar_trip_time t b a :=
  ⟨(hav_symm ht ha hb).symm, (stt_symm ht ha hb).symm⟩

set_option maxRecDepth 1000000 in
theorem c7_symmetry_witness :
    TrigSpec refTrig ∧
    is_valid_geolocation locEq0 = true ∧
    is_valid_geolocation locEq1 = true ∧
    (haversine_distance refTrig locEq0 locEq1 =
        haversine_distance refTrig locEq1 locEq0 ∧
      solar_trip_time refTrig locEq0 locEq1 =
        solar_trip_time refTrig locEq1 locEq0) :=
  ⟨refTrig_spec, rfl, rfl, c7_symmetry refTrig locEq0 locEq1 refTrig_spec rfl rfl⟩

/-- C8: for every valid coordinate `a`,
`haversine_distance a a = 0` (under the spec-modelled algebraic
properties of the external primitives). -/
theorem c8_distance_self_zero (t : Trig) (a : Location) (ht : TrigSpec t)
    (ha : is_valid_geolocation a = true) :
    haversine_distance t a a = some 0 :=
  hav_self ht a

set_option maxRecDepth 1000000 in
theorem c8_distance_self_zero_witness :
    TrigSpec refTrig ∧ is_valid_geolocation locEq0 = true ∧
    haversine_distance refTrig locEq0 locEq0 = some 0 :=
  ⟨refTrig_spec, rfl, c8_distance_self_zero refTrig locEq0 refTrig_spec rfl⟩

/-- C9: the intra-set scan compares pairs by value equality, not by
position: if every member of the set equals `l1`, every pair involving
`l1` is skipped, so the scan passes regardless of any trip times; in
particular a set of `n` duplicates of one valid, pole-safe and
dateline-safe location (with zero solar trip time between the
duplicates) is accepted, not rejected for intra-set proximity. -/
theorem c9_duplicate_locations_skipped :
    (∀ (t : Trig) (l1 : Location) (loc : List Location),
      (∀ l2 ∈ loc, l2 = l1) → intraOk t l1 loc = some true) ∧
    (∀ (env : Env) (s : AccountId) (st : State) (l : Location) (n : Nat)
        (bs : List AccountId),
      is_valid_geolocation l = true →
      polesNear env.trig l = some false →
      datelineNear env.trig l = some false →
      globalOk env.trig l st.locations st.currency_identifiers = some true →
      st.currency_identifiers.contains
        (env.hash (List.replicate n l) bs) = false →
      new_currency env (some s) st (List.replicate n l) bs =
        some (.ok (), commit st (env.hash (List.replicate n l) bs)
          (List.replicate n l) bs)) := by
  constructor
  · exact fun t l1 loc h => intraOk_all_eq h
  · intro env s st l n bs hval hp hd hg hct
    have hca : checkAll env.trig st.currency_identifiers st.locations
        (List.replicate n l) (List.replicate n l) = some (.ok ()) := by
      apply checkAll_ok_intro
      intro l1 hm
      have hl : l1 = l := List.eq_of_mem_replicate hm
      subst hl
      exact checkOne_ok_intro hval
        (intraOk_all_eq fun l2 hm2 => List.eq_of_mem_replicate hm2)
        hp hd hg
    unfold new_currency
    simp only [hct, Bool.false_eq_true, if_false, hca]

set_option maxRecDepth 1000000 in
theorem c9_duplicate_locations_skipped_witness :
    new_currency refEnv (some 0) refState (List.replicate 2 locEq0) [] =
      some (.ok (), commit refState (refEnv.hash (List.replicate 2 locEq0) [])
        (List.replicate 2 locEq0) []) :=
  c9_duplicate_locations_skipped.2 refEnv 0 refState locEq0 2 [] rfl rfl rfl
    rfl rfl

/-- C10: on every successful call exactly the four storage changes
happen and nothing else: the new identifier is appended to the
identifier list (existing entries unchanged), the locations and
bootstrappers maps gain the caller's inputs under the new identifier,
and the currency-properties map gains the constant entry (name
"encointer dummy", hard-coded demurrage) regardless of caller input;
every other key of every map is untouched. -/
theorem c10_success_storage_effects (env : Env) (origin : Option AccountId)
    (st : State) (loc : List Location) (bs : List AccountId) (st2 : State)
    (h : new_currency env origin st loc bs = some (.ok (), st2)) :
    st2.currency_identifiers =
      st.currency_identifiers ++ [env.hash loc bs] ∧
    st2.locations (env.hash loc bs) = loc ∧
    st2.bootstrappers (env.hash loc bs) = bs ∧
    st2.currency_properties (env.hash loc bs) = dummyProperties ∧
    (∀ c, c ≠ env.hash loc bs →
      st2.locations c = st.locations c ∧
      st2.bootstrappers c = st.bootstrappers c ∧
      st2.currency_properties c = st.currency_properties c) := by
  have hst := new_currency_ok_state h
  subst hst
  refine ⟨rfl, ?_, ?_, ?_, fun c hc => ⟨?_, ?_, ?_⟩⟩ <;>
    simp [commit, insertMap]
  · intro hc2; exact absurd hc2 hc
  · intro hc2; exact absurd hc2 hc
  · intro hc2; exact absurd hc2 hc

set_option maxRecDepth 1000000 in
theorem c10_success_storage_effects_witness :
    (commit refState (refEnv.hash [locEq0] []) [locEq0]
        []).currency_identifiers =
      refState.currency_identifiers ++ [refEnv.hash [locEq0] []] ∧
    (commit refState (refEnv.hash [locEq0] []) [locEq0] []).locations
      (refEnv.hash [locEq0] []) = [locEq0] ∧
    (commit refState (refEnv.hash [locEq0] []) [locEq0] []).bootstrappers
      (refEnv.hash [locEq0] []) = [] ∧
    (commit refState (refEnv.hash [locEq0] []) [locEq0] []).currency_properties
      (refEnv.hash [locEq0] []) = dummyProperties ∧
    (∀ c, c ≠ refEnv.hash [locEq0] [] →
      (commit refState (refEnv.hash [locEq0] []) [locEq0] []).locations c =
        refState.locations c ∧
      (commit refState (refEnv.hash [locEq0] []) [locEq0] []).bootstrappers c =
        refState.bootstrappers c ∧
      (commit refState (refEnv.hash [locEq0] []) [locEq0]
          []).currency_properties c =
        refState.currency_properties c) :=
  c10_success_storage_effects refEnv (some 0) refState [locEq0] [] _ (by rfl)

end EncointerCurrencies
